import Mathlib

/-!
Verification of the mackerel-plugin-iostat core (package `mpiostat`).

The Go source is shallowly embedded as pure Lean functions:

* `formatDiskstats` — tokenizes the raw `/proc/diskstats` text;
* `parseStats` — converts one token row into metric-key/value entries;
* `analyzeBlockdevices` — classifies block devices as physical/virtual;
* `FetchMetrics` — the orchestrator combining all of the above.

Environment access is made explicit: the contents of `/proc/diskstats` is a
`String` argument, the `/sys/block` directory listing is a list of `FileInfo`
records carrying the `os.Readlink` result for each entry, and the mutable
Go maps become association lists where a later insertion shadows an earlier one
(lookup takes the most recent binding, exactly like a Go map read).
Numeric values are exact rationals (`ℚ`); `float64` rounding is not modelled.
A Go runtime panic (index out of range) is a distinguished result constructor,
kept separate from an error value returned by the function.
-/

namespace MpIostat

/-- Models Go `unicode.IsSpace`: the Latin-1 white space characters
`\t \n \v \f \r space U+0085 U+00A0` plus the Unicode `White_Space`
code points above Latin-1. -/
def goIsSpace (c : Char) : Bool :=
  c = '\t' || c = '\n' || c = '\x0b' || c = '\x0c' || c = '\r' || c = ' ' ||
  c = '\x85' || c = '\xa0' ||
  c = '\u1680' || ('\u2000' ≤ c && c ≤ '\u200a') ||
  c = '\u2028' || c = '\u2029' || c = '\u202f' || c = '\u205f' || c = '\u3000'

/-- Splits a character list at every character satisfying `p`, keeping empty
segments, like Go `strings.Split` does for a one-character separator.
The result is always nonempty; on `[]` it is `[[]]`, matching
`strings.Split("", sep) = [""]`. -/
def splitChars (p : Char → Bool) : List Char → List (List Char)
  | [] => [[]]
  | c :: rest =>
    if p c then [] :: splitChars p rest
    else
      match splitChars p rest with
      | [] => [[c]]
      | h :: t => (c :: h) :: t

/-- Models Go `strings.Fields`: split on runs of white space; no empty fields
are produced. -/
def goFields (line : List Char) : List String :=
  ((splitChars goIsSpace line).filter (fun f => !f.isEmpty)).map String.mk

/-- Embeds `IostatPlugin.formatDiskstats`: split the diskstats text on
newlines, split each line into fields, and skip a line whose field list is
empty or whose first field is empty (`len(matches) == 0 || len(matches[0]) == 0`),
appending the remaining rows in file order. -/
def formatDiskstats (stats : String) : List (List String) :=
  (splitChars (fun c => c == '\n') stats.data).foldl
    (fun result line =>
      let fs := goFields line
      match fs with
      | [] => result
      | first :: _ => if first.length = 0 then result else result ++ [fs])
    []

/-- Decimal value of a digit string. -/
def digitsToNat (l : List Char) : ℕ :=
  l.foldl (fun a c => a * 10 + (c.toNat - 48)) 0

/-- Models `strconv.ParseFloat(s, 64)` on the decimal fixed-point subset:
an optional sign, then digits with at most one point and at least one digit.
The value is the exact rational; `float64` rounding, range errors, exponents,
hexadecimal floats, `Inf`/`NaN` and digit-separating underscores are outside
the subset used by diskstats rows and are not modelled (such tokens fail to
parse here). `none` is a parse failure; Go additionally returns the zero
value `0` then, which the call sites of this model reproduce explicitly.
`parseUnsigned` handles the digits (with at most one point); `parseFloat`
adds the optional sign. -/
def parseUnsigned (body : List Char) : Option ℚ :=
  let ip := body.takeWhile (fun c => c != '.')
  let rest := body.dropWhile (fun c => c != '.')
  match rest with
  | [] =>
    if ip ≠ [] ∧ ip.all Char.isDigit then some ((digitsToNat ip : ℚ)) else none
  | _ :: frac =>
    if (ip ≠ [] ∨ frac ≠ []) ∧ (ip ++ frac).all Char.isDigit then
      some ((digitsToNat ip : ℚ) + (digitsToNat frac : ℚ) / (10 : ℚ) ^ frac.length)
    else none

/-- See `parseUnsigned`. -/
def parseFloat (s : String) : Option ℚ :=
  match s.data with
  | '+' :: rest => parseUnsigned rest
  | '-' :: rest => (parseUnsigned rest).map (fun v => -v)
  | l => parseUnsigned l

/-- The fixed metric-name catalogue (`var metricNames` in the source). -/
def metricNames : List String :=
  ["request.reads", "merge.reads", "sector.read", "time.read",
   "request.writes", "merge.writes", "sector.written", "time.write",
   "inprogress.io", "time.io", "time.ioWeighted",
   "request.discards", "merge.discards", "sector.Discarded", "time.discard"]

/-- Character-level substitution of the device label at the first `.`:
models `strings.Replace(tmpl, ".", "." + label + ".", 1)`. -/
def replaceFirstDot (label : String) : List Char → List Char
  | [] => []
  | c :: rest =>
    if c = '.' then '.' :: (label.data ++ '.' :: rest)
    else c :: replaceFirstDot label rest

/-- The metric key built from a catalogue template and a device label,
e.g. `metricKey "time.io" "vda1" = "time.vda1.io"`. -/
def metricKey (tmpl label : String) : String :=
  String.mk (replaceFirstDot label tmpl.data)

/-- Models `strings.Split(key, ".")[0]`: the part of the key before its
first `.` (the whole key when it has no `.`). -/
def keyCategory (key : String) : String :=
  String.mk (key.data.takeWhile (fun c => c != '.'))

/-- The categories whose counters the source divides by 60
(the `switch` cases `"request", "merge", "sector", "time"`). -/
def isRateCategory (s : String) : Bool :=
  s == "request" || s == "merge" || s == "sector" || s == "time"

/-- The error text produced for an unparsable counter token:
`fmt.Errorf("Failed to parse value: %s", err)` wrapping the
`strconv.ParseFloat` syntax error, which names the offending token. -/
def parseErrMsg (tok : String) : String :=
  "Failed to parse value: strconv.ParseFloat: parsing \"" ++ tok ++ "\": invalid syntax"

/-- A Go `map[string]float64` as an association list; an insertion is a
`cons`, so lookup returns the most recently inserted binding for a key. -/
abbrev MetricMap := List (String × ℚ)

/-- Map insertion (`metrics[key] = v`). -/
def mset (m : MetricMap) (key : String) (v : ℚ) : MetricMap :=
  (key, v) :: m

/-- Map read (`metrics[key]`), `none` when the key is absent. -/
def mget (m : MetricMap) (key : String) : Option ℚ :=
  List.lookup key m

/-- The result of `parseStats`: normal return with the (mutated) map, an
error return (the map argument was still mutated, which the orchestrator
discards), or a runtime index-out-of-range panic. -/
inductive PResult where
  | ok (metrics : MetricMap)
  | err (metrics : MetricMap) (msg : String)
  | panic
deriving DecidableEq

/-- The map held in a `PResult` (empty after a panic, which aborts the
process before any value is observable). -/
def PResult.metricsOf : PResult → MetricMap
  | .ok m => m
  | .err m _ => m
  | .panic => []

/-- Whether a `PResult` is a normal return. -/
def PResult.isOk : PResult → Bool
  | .ok _ => true
  | _ => false

/-- The error message of a `PResult`, if any. -/
def PResult.errMsgOf : PResult → Option String
  | .err _ e => some e
  | _ => none

/-- The loop body of `parseStats` over the counter tokens `stats[3:]`,
with `i` the running catalogue index. `metricNames[i]` is read before the
token is parsed, so an index past the catalogue panics even when the token
would not have parsed; a failed parse stores the zero value under the key
(Go's `metrics[key], err = strconv.ParseFloat(...)`) and then returns the
error; a successful parse stores the value and then divides the stored
value by 60 when the key's category is a rate category. -/
def parseStatsLoop (label : String) : List String → ℕ → MetricMap → PResult
  | [], _, m => .ok m
  | tok :: rest, i, m =>
    match metricNames.get? i with
    | none => .panic
    | some tmpl =>
      let key := metricKey tmpl label
      match parseFloat tok with
      | none => .err (mset m key 0) (parseErrMsg tok)
      | some v =>
        let m1 := mset m key v
        let m2 := if isRateCategory (keyCategory key) then mset m1 key (v / 60) else m1
        parseStatsLoop label rest (i + 1) m2

/-- Embeds `IostatPlugin.parseStats`. The slice `stats[3:]` panics when the
row has fewer than 3 tokens. -/
def parseStats (label : String) (stats : List String) (metrics : MetricMap) : PResult :=
  if stats.length < 3 then .panic
  else parseStatsLoop label (stats.drop 3) 0 metrics

/-- One `/sys/block` directory entry as consumed by `analyzeBlockdevices`:
the `os.FileInfo` name, whether `Mode()&os.ModeSymlink == os.ModeSymlink`,
and the outcome of `os.Readlink("/sys/block/" + name)` for it (the
environment made explicit; `.error e` models a failing `Readlink` whose
underlying error text is `e`). -/
structure FileInfo where
  name : String
  isSymlink : Bool
  readlinkResult : Except String String

/-- Models `strings.HasPrefix pre` applied to `s`. -/
def hasPre (pre s : String) : Bool :=
  decide (pre.data = s.data.take pre.data.length)

/-- One iteration of the `analyzeBlockdevices` loop: record the device as
`false`, keep that for a non-symlink, fail hard when the symlink target
cannot be read, keep `false` when the target starts with
`../devices/virtual/block/`, and overwrite with `true` otherwise. -/
def classifyOne (blocks : List (String × Bool)) (d : FileInfo) :
    Except String (List (String × Bool)) :=
  let b1 := (d.name, false) :: blocks
  if !d.isSymlink then .ok b1
  else
    match d.readlinkResult with
    | .error e => .error ("Cannot read from directory /sys/block/" ++ d.name ++ ": " ++ e)
    | .ok real =>
      if hasPre "../devices/virtual/block/" real then .ok b1
      else .ok ((d.name, true) :: b1)

/-- The fold of `classifyOne` over the directory entries in order. -/
def analyzeLoop : List FileInfo → List (String × Bool) → Except String (List (String × Bool))
  | [], blocks => .ok blocks
  | d :: rest, blocks =>
    match classifyOne blocks d with
    | .error e => .error e
    | .ok b => analyzeLoop rest b

/-- Embeds `IostatPlugin.analyzeBlockdevices`. -/
def analyzeBlockdevices (devices : List FileInfo) :
    Except String (List (String × Bool)) :=
  analyzeLoop devices []

/-- Models `deviceNamePattern.ReplaceAllString(device, "")` for
`deviceNamePattern = regexp.MustCompile("[^[[:alnum:]]_-]")`.
RE2 parses that pattern as the negated class `[^ \[ [:alnum:] ]` — the first
inner `[` is a literal member because it is not followed by `:`, the
`[:alnum:]` item is the ASCII alphanumeric POSIX class, and the `]` right
after it closes the class — followed by the three literal characters `_`,
`-`, `]`. A match is therefore a four-character run: one character that is
neither `[` nor ASCII alphanumeric, then `_-]`. `ReplaceAllString` deletes
the non-overlapping leftmost matches, which this recursion reproduces. -/
def stripDeviceNameMatches : List Char → List Char
  | c :: '_' :: '-' :: ']' :: rest =>
    if c = '[' ∨ c.isAlphanum then c :: stripDeviceNameMatches ('_' :: '-' :: ']' :: rest)
    else stripDeviceNameMatches rest
  | c :: rest => c :: stripDeviceNameMatches rest
  | [] => []

/-- The device-name sanitization the orchestrator applies before key
construction (`deviceDispName` in `FetchMetrics`). -/
def deviceNameSanitize (s : String) : String :=
  String.mk (stripDeviceNameMatches s.data)

/-- The result of `FetchMetrics`: the metric mapping, a returned error
(`return nil, err` — no mapping accompanies it), or a runtime panic. -/
inductive Outcome where
  | ok (metrics : MetricMap)
  | err (msg : String)
  | panic
deriving DecidableEq

/-- Whether an `Outcome` is a normal return. -/
def Outcome.isOk : Outcome → Bool
  | .ok _ => true
  | _ => false

/-- The mapping returned by an `Outcome` (empty unless it is `.ok`). -/
def Outcome.metricsOf : Outcome → MetricMap
  | .ok m => m
  | _ => []

/-- The row loop of `FetchMetrics`: read the device name `disk[2]`
(panicking when absent), skip the row when the classification map binds the
device to `false`, otherwise sanitize the name and run `parseStats` on the
shared accumulating map; a `parseStats` error aborts the whole loop with
`return nil, err`. -/
def fetchLoop (blocks : List (String × Bool)) : List (List String) → MetricMap → Outcome
  | [], metrics => .ok metrics
  | row :: rest, metrics =>
    match row.get? 2 with
    | none => .panic
    | some device =>
      if List.lookup device blocks = some false then fetchLoop blocks rest metrics
      else
        match parseStats (deviceNameSanitize device) row metrics with
        | .ok m => fetchLoop blocks rest m
        | .err _ e => .err e
        | .panic => .panic

/-- Embeds `IostatPlugin.FetchMetrics` with the environment made explicit:
`diskstats` is the text read from `/proc/diskstats` and `devices` the
`/sys/block` listing (a read failure of either is the collaborator's error
path, outside these claims). When `ignoreVirtual` is set the classifier
runs first and its error is returned unchanged; otherwise the
classification map stays empty and no row is ever skipped. -/
def FetchMetrics (diskstats : String) (devices : List FileInfo) (ignoreVirtual : Bool) : Outcome :=
  if ignoreVirtual then
    match analyzeBlockdevices devices with
    | .error e => .err e
    | .ok blocks => fetchLoop blocks (formatDiskstats diskstats) []
  else
    fetchLoop [] (formatDiskstats diskstats) []

/-- Whether the orchestrator's skip test lets a row through: a row is
excluded exactly when its device name is bound to `false` in the
classification map. -/
def includedRow (blocks : List (String × Bool)) (row : List String) : Bool :=
  match row.get? 2 with
  | none => true
  | some d => if List.lookup d blocks = some false then false else true


/-- The keep-predicate of the tokenizer, as stated by the specification:
a line is kept unless it produced zero fields or its first field is empty. -/
def keepRow (row : List String) : Bool :=
  match row with
  | [] => false
  | first :: _ => !(first.length == 0)

/-- The 14-token `vda` fixture row of `TestParseStats`. -/
def vdaTestRow : List String :=
  ["252", "0", "vda", "62695", "0", "2880751", "26352", "1383415", "166185",
   "10725792", "396176", "0", "25204", "301208"]

/-- A diskstats blob with one physical-device row and one virtual-device row
whose first counter token is not numeric. -/
def mixedBadText : String :=
  "252 0 vda 1 1 1 1 1 1 1 1 1 1 1\n7 0 loop0 abc 1 1 1 1 1 1 1 1 1 1"

/-- A `/sys/block` listing with the single virtual device `loop0`. -/
def loopOnlyDevices : List FileInfo :=
  [⟨"loop0", true, .ok "../devices/virtual/block/loop0"⟩]

/-- A `/sys/block` listing with one virtual, one physical and one
non-symlink entry. -/
def mixedDevices : List FileInfo :=
  [⟨"loop0", true, .ok "../devices/virtual/block/loop0"⟩,
   ⟨"vda", true, .ok "../../devices/pci0000:00/virtio2/block/vda"⟩,
   ⟨"sr0", false, .ok ""⟩]

/-- A 19-token row (3 identity fields and 16 numeric counters). -/
def longNumericRow : List String :=
  ["252", "0", "vda", "1", "2", "3", "4", "5", "6", "7", "8",
   "9", "10", "11", "12", "13", "14", "15", "16"]

/-- A 19-token row whose first counter token is not numeric. -/
def longBadRow : List String :=
  ["252", "0", "vda", "x", "2", "3", "4", "5", "6", "7", "8",
   "9", "10", "11", "12", "13", "14", "15", "16"]

/-- A row whose second counter token is not numeric. -/
def badMidRow : List String := ["252", "0", "vda", "62695", "zzz", "5"]

/-! ### Association-map lemmas -/

theorem mget_mset_self (m : MetricMap) (k : String) (v : ℚ) :
    mget (mset m k v) k = some v := by
  simp [mget, mset, List.lookup]

theorem mget_mset_ne (m : MetricMap) {k k' : String} (v : ℚ) (h : k' ≠ k) :
    mget (mset m k v) k' = mget m k' := by
  have hb : (k' == k) = false := beq_eq_false_iff_ne.mpr h
  simp [mget, mset, List.lookup, hb]

theorem lookup_append_of_not_mem {α β : Type} [BEq α] [LawfulBEq α]
    {k : α} {l₁ l₂ : List (α × β)} (h : ∀ p ∈ l₁, p.1 ≠ k) :
    List.lookup k (l₁ ++ l₂) = List.lookup k l₂ := by
  induction l₁ with
  | nil => rfl
  | cons p l₁ ih =>
    have hp : p.1 ≠ k := h p (List.mem_cons_self _ _)
    have : (k == p.1) = false := by
      simp [beq_eq_false_iff_ne]
      exact fun he => hp he.symm
    simp [List.lookup, this]
    exact ih fun q hq => h q (List.mem_cons_of_mem _ hq)

/-! ### Metric-key decomposition and injectivity -/

theorem exists_dot_split {l : List Char} (h : '.' ∈ l) :
    ∃ a r, l = a ++ '.' :: r ∧ '.' ∉ a := by
  induction l with
  | nil => cases h
  | cons c rest ih =>
    by_cases hc : c = '.'
    · exact ⟨[], rest, by simp [hc], by simp⟩
    · have h' : '.' ∈ rest := by
        rcases List.mem_cons.mp h with h0 | h0
        · exact absurd h0.symm hc
        · exact h0
      obtain ⟨a, r, he, ha⟩ := ih h'
      refine ⟨c :: a, r, by simp [he], ?_⟩
      intro hmem
      rcases List.mem_cons.mp hmem with h0 | h0
      · exact hc h0.symm
      · exact ha h0

theorem replaceFirstDot_append {a : List Char} (ha : '.' ∉ a) (label : String) (r : List Char) :
    replaceFirstDot label (a ++ '.' :: r) = a ++ '.' :: (label.data ++ '.' :: r) := by
  induction a with
  | nil => simp [replaceFirstDot]
  | cons c a ih =>
    have hc : c ≠ '.' := fun h => ha (h ▸ List.mem_cons_self _ _)
    have ha' : '.' ∉ a := fun h => ha (List.mem_cons_of_mem _ h)
    simp [replaceFirstDot, hc, ih ha']

theorem replaceFirstDot_of_not_mem {l : List Char} (h : '.' ∉ l) (label : String) :
    replaceFirstDot label l = l := by
  induction l with
  | nil => rfl
  | cons c rest ih =>
    have hc : c ≠ '.' := fun hh => h (hh ▸ List.mem_cons_self _ _)
    have h' : '.' ∉ rest := fun hh => h (List.mem_cons_of_mem _ hh)
    simp [replaceFirstDot, hc, ih h']

theorem append_dot_inj : ∀ {a₁ a₂ t₁ t₂ : List Char}, '.' ∉ a₁ → '.' ∉ a₂ →
    a₁ ++ '.' :: t₁ = a₂ ++ '.' :: t₂ → a₁ = a₂ ∧ t₁ = t₂ := by
  intro a₁
  induction a₁ with
  | nil =>
    intro a₂ t₁ t₂ _ h₂ h
    cases a₂ with
    | nil => simpa using h
    | cons d a₂ =>
      injection h with hc _
      exact absurd (hc ▸ List.mem_cons_self d a₂) h₂
  | cons c a₁ ih =>
    intro a₂ t₁ t₂ h₁ h₂ h
    cases a₂ with
    | nil =>
      injection h with hc _
      exact absurd (hc ▸ List.mem_cons_self c a₁) h₁
    | cons d a₂ =>
      injection h with hcd ht
      have h₁' : '.' ∉ a₁ := fun hh => h₁ (List.mem_cons_of_mem _ hh)
      have h₂' : '.' ∉ a₂ := fun hh => h₂ (List.mem_cons_of_mem _ hh)
      obtain ⟨hA, hT⟩ := ih h₁' h₂' ht
      exact ⟨by rw [hcd, hA], hT⟩

theorem metricKey_inj {s t label : String} (hs : '.' ∈ s.data) (ht : '.' ∈ t.data)
    (h : metricKey s label = metricKey t label) : s = t := by
  obtain ⟨a₁, r₁, he₁, ha₁⟩ := exists_dot_split hs
  obtain ⟨a₂, r₂, he₂, ha₂⟩ := exists_dot_split ht
  have h' : replaceFirstDot label s.data = replaceFirstDot label t.data := by
    have hd := congrArg String.data h
    simpa [metricKey] using hd
  rw [he₁, he₂, replaceFirstDot_append ha₁, replaceFirstDot_append ha₂] at h'
  obtain ⟨hA, hT⟩ := append_dot_inj ha₁ ha₂ h'
  have hT' : r₁ = r₂ := by
    have := List.append_cancel_left hT
    injection this
  have hdata : s.data = t.data := by rw [he₁, he₂, hA, hT']
  cases s; cases t
  exact congrArg String.mk hdata

theorem metricNames_dot : ∀ s ∈ metricNames, '.' ∈ s.data := by decide

theorem metricNames_nodup : metricNames.Nodup := by decide

theorem metricKey_get_inj {label : String} {a b : ℕ} {ta tb : String}
    (hga : metricNames.get? a = some ta) (hgb : metricNames.get? b = some tb)
    (hab : a ≠ b) : metricKey ta label ≠ metricKey tb label := by
  intro h
  have hta : ta ∈ metricNames := List.get?_mem hga
  have htb : tb ∈ metricNames := List.get?_mem hgb
  have hteq : ta = tb := metricKey_inj (metricNames_dot ta hta) (metricNames_dot tb htb) h
  subst hteq
  have ha : a < metricNames.length := (List.get?_eq_some.mp hga).1
  exact hab (List.get?_inj ha metricNames_nodup (hga.trans hgb.symm))

theorem takeWhile_append_dot {a : List Char} (ha : '.' ∉ a) (r : List Char) :
    (a ++ '.' :: r).takeWhile (fun c => c != '.') = a := by
  induction a with
  | nil => simp [List.takeWhile]
  | cons c a ih =>
    have hc : c ≠ '.' := fun h => ha (h ▸ List.mem_cons_self _ _)
    have ha' : '.' ∉ a := fun h => ha (List.mem_cons_of_mem _ h)
    simp [List.takeWhile_cons, hc, ih ha']

theorem keyCategory_metricKey (tmpl label : String) :
    keyCategory (metricKey tmpl label) = keyCategory tmpl := by
  by_cases h : '.' ∈ tmpl.data
  · obtain ⟨a, r, he, ha⟩ := exists_dot_split h
    have h1 : (metricKey tmpl label).data = a ++ '.' :: (label.data ++ '.' :: r) := by
      simp [metricKey, he, replaceFirstDot_append ha]
    have h2 : tmpl.data = a ++ '.' :: r := he
    simp [keyCategory, h1, h2, takeWhile_append_dot ha]
  · simp [metricKey, keyCategory, replaceFirstDot_of_not_mem h]

/-! ### `parseStatsLoop` step lemmas -/

theorem metricNames_length : metricNames.length = 15 := rfl

theorem metricNames_get?_lt {i : ℕ} (h : i < 15) :
    ∃ tmpl, metricNames.get? i = some tmpl := by
  have hl : i < metricNames.length := by rw [metricNames_length]; exact h
  exact ⟨metricNames.get ⟨i, hl⟩, List.get?_eq_get hl⟩

theorem metricNames_get?_ge {i : ℕ} (h : 15 ≤ i) : metricNames.get? i = none := by
  apply List.get?_eq_none.mpr
  rw [metricNames_length]
  exact h

theorem parseStatsLoop_cons_some (label tok : String) (rest : List String) (i : ℕ)
    (m : MetricMap) (tmpl : String) (v : ℚ)
    (hget : metricNames.get? i = some tmpl) (hv : parseFloat tok = some v) :
    parseStatsLoop label (tok :: rest) i m =
      parseStatsLoop label rest (i + 1)
        (if isRateCategory (keyCategory (metricKey tmpl label))
         then mset (mset m (metricKey tmpl label) v) (metricKey tmpl label) (v / 60)
         else mset m (metricKey tmpl label) v) := by
  simp only [parseStatsLoop, hget, hv]

theorem parseStatsLoop_cons_none (label tok : String) (rest : List String) (i : ℕ)
    (m : MetricMap) (tmpl : String)
    (hget : metricNames.get? i = some tmpl) (hv : parseFloat tok = none) :
    parseStatsLoop label (tok :: rest) i m =
      .err (mset m (metricKey tmpl label) 0) (parseErrMsg tok) := by
  simp only [parseStatsLoop, hget, hv]

theorem parseStatsLoop_cons_oob (label tok : String) (rest : List String) (i : ℕ)
    (m : MetricMap) (hget : metricNames.get? i = none) :
    parseStatsLoop label (tok :: rest) i m = .panic := by
  simp only [parseStatsLoop, hget]

theorem step_mget_self (label tmpl : String) (m : MetricMap) (v : ℚ) :
    mget (if isRateCategory (keyCategory (metricKey tmpl label))
          then mset (mset m (metricKey tmpl label) v) (metricKey tmpl label) (v / 60)
          else mset m (metricKey tmpl label) v) (metricKey tmpl label) =
      some (if isRateCategory (keyCategory tmpl) then v / 60 else v) := by
  rw [keyCategory_metricKey]
  by_cases h : isRateCategory (keyCategory tmpl)
  · simp [h, mget_mset_self]
  · simp [h, mget_mset_self]

theorem step_mget_ne (label tmpl : String) (m : MetricMap) (v : ℚ) {k : String}
    (h : k ≠ metricKey tmpl label) :
    mget (if isRateCategory (keyCategory (metricKey tmpl label))
          then mset (mset m (metricKey tmpl label) v) (metricKey tmpl label) (v / 60)
          else mset m (metricKey tmpl label) v) k = mget m k := by
  by_cases hr : isRateCategory (keyCategory (metricKey tmpl label)) <;>
    simp [hr, mget_mset_ne _ _ h]

/-! ### `parseStatsLoop` main lemmas -/

theorem parseStatsLoop_ok (label : String) :
    ∀ (counters : List String) (i : ℕ) (m : MetricMap),
      i + counters.length ≤ 15 →
      (∀ t ∈ counters, (parseFloat t).isSome) →
      ∃ m', parseStatsLoop label counters i m = .ok m' ∧
        (∀ k, (∀ j tmpl, j < counters.length → metricNames.get? (i + j) = some tmpl →
            k ≠ metricKey tmpl label) → mget m' k = mget m k) ∧
        (∀ j t v tmpl, counters.get? j = some t → parseFloat t = some v →
            metricNames.get? (i + j) = some tmpl →
            mget m' (metricKey tmpl label) =
              some (if isRateCategory (keyCategory tmpl) then v / 60 else v)) := by
  intro counters
  induction counters with
  | nil =>
    intro i m _ _
    refine ⟨m, rfl, fun k _ => rfl, ?_⟩
    intro j t v tmpl hj _ _
    simp at hj
  | cons tok rest ih =>
    intro i m hlen hall
    have hi : i < 15 := by simp only [List.length_cons] at hlen; omega
    obtain ⟨tmpl, hget⟩ := metricNames_get?_lt hi
    obtain ⟨v, hv⟩ := Option.isSome_iff_exists.mp (hall tok (List.mem_cons_self _ _))
    have hstep := parseStatsLoop_cons_some label tok rest i m tmpl v hget hv
    have hlen' : i + 1 + rest.length ≤ 15 := by
      simp only [List.length_cons] at hlen; omega
    obtain ⟨m', hrun, hpres, hlook⟩ :=
      ih (i + 1)
        (if isRateCategory (keyCategory (metricKey tmpl label))
         then mset (mset m (metricKey tmpl label) v) (metricKey tmpl label) (v / 60)
         else mset m (metricKey tmpl label) v)
        hlen' (fun t ht => hall t (List.mem_cons_of_mem _ ht))
    refine ⟨m', by rw [hstep]; exact hrun, ?_, ?_⟩
    · intro k hk
      have hk0 : k ≠ metricKey tmpl label := by
        refine hk 0 tmpl (by simp) ?_
        simpa using hget
      have hkrest : ∀ j tmpl', j < rest.length → metricNames.get? (i + 1 + j) = some tmpl' →
          k ≠ metricKey tmpl' label := by
        intro j tmpl' hj hg
        refine hk (j + 1) tmpl' (by simp only [List.length_cons]; omega) ?_
        have harith : i + (j + 1) = i + 1 + j := by omega
        rw [harith]
        exact hg
      rw [hpres k hkrest]
      exact step_mget_ne label tmpl m v hk0
    · intro j t v' tmpl' hgt hpv hgm
      cases j with
      | zero =>
        obtain rfl : tok = t := by simpa using hgt
        obtain rfl : tmpl = tmpl' := by
          have h0 : metricNames.get? i = some tmpl' := by simpa using hgm
          exact Option.some.inj (hget.symm.trans h0)
        obtain rfl : v = v' := Option.some.inj (hv.symm.trans hpv)
        have hne : ∀ j tmpl'', j < rest.length → metricNames.get? (i + 1 + j) = some tmpl'' →
            metricKey tmpl label ≠ metricKey tmpl'' label := by
          intro j tmpl'' _ hg
          exact metricKey_get_inj hget hg (by omega)
        rw [hpres _ hne]
        exact step_mget_self label tmpl m v
      | succ j =>
        have hgt' : rest.get? j = some t := by simpa using hgt
        have hgm' : metricNames.get? (i + 1 + j) = some tmpl' := by
          have harith : i + 1 + j = i + (j + 1) := by omega
          rw [harith]
          exact hgm
        exact hlook j t v' tmpl' hgt' hpv hgm'

theorem parseStatsLoop_err (label : String) :
    ∀ (k : ℕ) (counters : List String) (i : ℕ) (m : MetricMap) (t0 : String),
      counters.get? k = some t0 →
      i + k < 15 →
      parseFloat t0 = none →
      (∀ j t, j < k → counters.get? j = some t → (parseFloat t).isSome) →
      ∃ m', parseStatsLoop label counters i m = .err m' (parseErrMsg t0) ∧
        (∀ tmpl, metricNames.get? (i + k) = some tmpl →
          mget m' (metricKey tmpl label) = some 0) ∧
        (∀ j t v tmpl, j < k → counters.get? j = some t → parseFloat t = some v →
          metricNames.get? (i + j) = some tmpl →
          mget m' (metricKey tmpl label) =
            some (if isRateCategory (keyCategory tmpl) then v / 60 else v)) ∧
        (∀ key, (∀ j tmpl, j ≤ k → metricNames.get? (i + j) = some tmpl →
            key ≠ metricKey tmpl label) → mget m' key = mget m key) := by
  intro k
  induction k with
  | zero =>
    intro counters i m t0 hk hi hbad _
    cases counters with
    | nil => simp at hk
    | cons tok rest =>
      obtain rfl : tok = t0 := by simpa using hk
      obtain ⟨tmpl, hget⟩ := metricNames_get?_lt (by omega : i < 15)
      refine ⟨mset m (metricKey tmpl label) 0,
        parseStatsLoop_cons_none label tok rest i m tmpl hget hbad, ?_, ?_, ?_⟩
      · intro tmpl' hg
        have h0 : metricNames.get? i = some tmpl' := by simpa using hg
        obtain rfl : tmpl = tmpl' := Option.some.inj (hget.symm.trans h0)
        exact mget_mset_self m (metricKey tmpl label) 0
      · intro j t v tmpl' hj
        omega
      · intro key hkey
        refine mget_mset_ne m 0 (hkey 0 tmpl (by omega) ?_)
        simpa using hget
  | succ k ih =>
    intro counters i m t0 hk hi hbad hpre
    cases counters with
    | nil => simp at hk
    | cons tok rest =>
      have hk' : rest.get? k = some t0 := by simpa using hk
      obtain ⟨v, hv⟩ := Option.isSome_iff_exists.mp (hpre 0 tok (Nat.succ_pos k) (by simp))
      obtain ⟨tmpl, hget⟩ := metricNames_get?_lt (by omega : i < 15)
      have hstep := parseStatsLoop_cons_some label tok rest i m tmpl v hget hv
      obtain ⟨m', hrun, h0, hjs, hkeep⟩ :=
        ih rest (i + 1)
          (if isRateCategory (keyCategory (metricKey tmpl label))
           then mset (mset m (metricKey tmpl label) v) (metricKey tmpl label) (v / 60)
           else mset m (metricKey tmpl label) v)
          t0 hk' (by omega) hbad
          (fun j t hj hgt => hpre (j + 1) t (by omega) (by simpa using hgt))
      refine ⟨m', by rw [hstep]; exact hrun, ?_, ?_, ?_⟩
      · intro tmpl' hg
        have harith : i + (k + 1) = i + 1 + k := by omega
        rw [harith] at hg
        exact h0 tmpl' hg
      · intro j t v' tmpl' hj hgt hpv hgm
        cases j with
        | zero =>
          obtain rfl : tok = t := by simpa using hgt
          obtain rfl : tmpl = tmpl' := by
            have hg0 : metricNames.get? i = some tmpl' := by simpa using hgm
            exact Option.some.inj (hget.symm.trans hg0)
          obtain rfl : v = v' := Option.some.inj (hv.symm.trans hpv)
          have hne : ∀ j tmpl'', j ≤ k → metricNames.get? (i + 1 + j) = some tmpl'' →
              metricKey tmpl label ≠ metricKey tmpl'' label := by
            intro j tmpl'' _ hg
            exact metricKey_get_inj hget hg (by omega)
          rw [hkeep _ hne]
          exact step_mget_self label tmpl m v
        | succ j =>
          have hgt' : rest.get? j = some t := by simpa using hgt
          have hgm' : metricNames.get? (i + 1 + j) = some tmpl' := by
            have harith : i + 1 + j = i + (j + 1) := by omega
            rw [harith]
            exact hgm
          exact hjs j t v' tmpl' (by omega) hgt' hpv hgm'
      · intro key hkey
        have hkey' : ∀ j tmpl', j ≤ k → metricNames.get? (i + 1 + j) = some tmpl' →
            key ≠ metricKey tmpl' label := by
          intro j tmpl' hj hg
          refine hkey (j + 1) tmpl' (by omega) ?_
          have harith : i + (j + 1) = i + 1 + j := by omega
          rw [harith]
          exact hg
        rw [hkeep key hkey']
        refine step_mget_ne label tmpl m v (hkey 0 tmpl (by omega) ?_)
        simpa using hget

theorem parseStatsLoop_err_exists (label : String) :
    ∀ (counters : List String) (i : ℕ) (m : MetricMap),
      i + counters.length ≤ 15 →
      (∃ t ∈ counters, parseFloat t = none) →
      ∃ t m', t ∈ counters ∧ parseFloat t = none ∧
        parseStatsLoop label counters i m = .err m' (parseErrMsg t) := by
  intro counters
  induction counters with
  | nil =>
    intro i m _ h
    simp at h
  | cons tok rest ih =>
    intro i m hlen hbad
    have hi : i < 15 := by simp only [List.length_cons] at hlen; omega
    obtain ⟨tmpl, hget⟩ := metricNames_get?_lt hi
    cases hv : parseFloat tok with
    | none =>
      exact ⟨tok, mset m (metricKey tmpl label) 0, List.mem_cons_self _ _, hv,
        parseStatsLoop_cons_none label tok rest i m tmpl hget hv⟩
    | some v =>
      have hbad' : ∃ t ∈ rest, parseFloat t = none := by
        obtain ⟨t, ht, hnone⟩ := hbad
        rcases List.mem_cons.mp ht with rfl | hmem
        · rw [hv] at hnone; cases hnone
        · exact ⟨t, hmem, hnone⟩
      obtain ⟨t, m', hmem, hnone, hrun⟩ :=
        ih (i + 1)
          (if isRateCategory (keyCategory (metricKey tmpl label))
           then mset (mset m (metricKey tmpl label) v) (metricKey tmpl label) (v / 60)
           else mset m (metricKey tmpl label) v)
          (by simp only [List.length_cons] at hlen; omega) hbad'
      refine ⟨t, m', List.mem_cons_of_mem _ hmem, hnone, ?_⟩
      rw [parseStatsLoop_cons_some label tok rest i m tmpl v hget hv]
      exact hrun

theorem parseStatsLoop_ne_panic (label : String) :
    ∀ (counters : List String) (i : ℕ) (m : MetricMap),
      i + counters.length ≤ 15 → parseStatsLoop label counters i m ≠ .panic := by
  intro counters
  induction counters with
  | nil =>
    intro i m _ h
    exact PResult.noConfusion h
  | cons tok rest ih =>
    intro i m hlen
    have hi : i < 15 := by simp only [List.length_cons] at hlen; omega
    obtain ⟨tmpl, hget⟩ := metricNames_get?_lt hi
    cases hv : parseFloat tok with
    | none =>
      rw [parseStatsLoop_cons_none label tok rest i m tmpl hget hv]
      exact fun h => PResult.noConfusion h
    | some v =>
      rw [parseStatsLoop_cons_some label tok rest i m tmpl v hget hv]
      exact ih (i + 1) _ (by simp only [List.length_cons] at hlen; omega)

theorem parseStatsLoop_panic_of_long (label : String) :
    ∀ (counters : List String) (i : ℕ) (m : MetricMap),
      i ≤ 15 → 15 - i < counters.length →
      (∀ j t, j < 15 - i → counters.get? j = some t → (parseFloat t).isSome) →
      parseStatsLoop label counters i m = .panic := by
  intro counters
  induction counters with
  | nil =>
    intro i m _ hlen _
    simp only [List.length_nil] at hlen
    omega
  | cons tok rest ih =>
    intro i m hi hlen hj
    rcases Nat.lt_or_ge i 15 with hlt | hge
    · obtain ⟨tmpl, hget⟩ := metricNames_get?_lt hlt
      obtain ⟨v, hv⟩ := Option.isSome_iff_exists.mp (hj 0 tok (by omega) (by simp))
      rw [parseStatsLoop_cons_some label tok rest i m tmpl v hget hv]
      refine ih (i + 1) _ (by omega) (by simp only [List.length_cons] at hlen; omega) ?_
      intro j t hjlt hgt
      exact hj (j + 1) t (by omega) (by simpa using hgt)
    · exact parseStatsLoop_cons_oob label tok rest i m (metricNames_get?_ge hge)

/-! ### `parseStats` wrappers -/

theorem parseStats_ok (label : String) (stats : List String) (m : MetricMap)
    (h3 : 3 ≤ stats.length) (h18 : stats.length ≤ 18)
    (hall : ∀ t ∈ stats.drop 3, (parseFloat t).isSome) :
    ∃ m', parseStats label stats m = .ok m' ∧
      (∀ j t v tmpl, (stats.drop 3).get? j = some t → parseFloat t = some v →
        metricNames.get? j = some tmpl →
        mget m' (metricKey tmpl label) =
          some (if isRateCategory (keyCategory tmpl) then v / 60 else v)) := by
  have hlen : 0 + (stats.drop 3).length ≤ 15 := by
    rw [List.length_drop]
    omega
  obtain ⟨m', hrun, _, hlook⟩ := parseStatsLoop_ok label (stats.drop 3) 0 m hlen hall
  have hnot : ¬stats.length < 3 := by omega
  refine ⟨m', ?_, ?_⟩
  · rw [parseStats, if_neg hnot]
    exact hrun
  · intro j t v tmpl hgt hpv hgm
    exact hlook j t v tmpl hgt hpv (by simpa using hgm)

theorem parseStats_err_exists (label : String) (stats : List String) (m : MetricMap)
    (h3 : 3 ≤ stats.length) (h18 : stats.length ≤ 18)
    (hbad : ∃ t ∈ stats.drop 3, parseFloat t = none) :
    ∃ t m', t ∈ stats.drop 3 ∧ parseFloat t = none ∧
      parseStats label stats m = .err m' (parseErrMsg t) := by
  have hlen : 0 + (stats.drop 3).length ≤ 15 := by
    rw [List.length_drop]
    omega
  obtain ⟨t, m', hmem, hnone, hrun⟩ :=
    parseStatsLoop_err_exists label (stats.drop 3) 0 m hlen hbad
  have hnot : ¬stats.length < 3 := by omega
  refine ⟨t, m', hmem, hnone, ?_⟩
  rw [parseStats, if_neg hnot]
  exact hrun

theorem parseStats_ne_panic (label : String) (stats : List String) (m : MetricMap)
    (h3 : 3 ≤ stats.length) (h18 : stats.length ≤ 18) :
    parseStats label stats m ≠ .panic := by
  have hnot : ¬stats.length < 3 := by omega
  rw [parseStats, if_neg hnot]
  refine parseStatsLoop_ne_panic label (stats.drop 3) 0 m ?_
  rw [List.length_drop]
  omega

theorem parseStats_panic_short (label : String) (stats : List String) (m : MetricMap)
    (h : stats.length < 3) : parseStats label stats m = .panic := by
  rw [parseStats, if_pos h]

theorem parseStats_panic_long (label : String) (stats : List String) (m : MetricMap)
    (h : 18 < stats.length)
    (hall : ∀ j t, j < 15 → (stats.drop 3).get? j = some t → (parseFloat t).isSome) :
    parseStats label stats m = .panic := by
  have hnot : ¬stats.length < 3 := by omega
  rw [parseStats, if_neg hnot]
  refine parseStatsLoop_panic_of_long label (stats.drop 3) 0 m (by omega) ?_ ?_
  · rw [List.length_drop]
    omega
  · intro j t hj hgt
    exact hall j t (by omega) hgt

/-! ### `fetchLoop` lemmas -/

theorem fetchLoop_filter (blocks : List (String × Bool)) :
    ∀ (rows : List (List String)) (m : MetricMap),
      fetchLoop blocks rows m = fetchLoop [] (rows.filter (includedRow blocks)) m := by
  intro rows
  induction rows with
  | nil => intro m; rfl
  | cons row rest ih =>
    intro m
    cases hrow : row.get? 2 with
    | none =>
      have hinc : includedRow blocks row = true := by
        simp only [includedRow, hrow]
      simp only [fetchLoop, hrow, List.filter_cons, hinc, if_pos]
    | some d =>
      by_cases hskip : List.lookup d blocks = some false
      · have hinc : includedRow blocks row = false := by
          simp only [includedRow, hrow, if_pos hskip]
        simp only [fetchLoop, hrow, if_pos hskip, List.filter_cons, hinc]
        exact ih m
      · have hinc : includedRow blocks row = true := by
          simp only [includedRow, hrow, if_neg hskip]
        have hempty : ¬List.lookup d ([] : List (String × Bool)) = some false := by
          simp [List.lookup]
        simp only [fetchLoop, hrow, if_neg hskip, List.filter_cons, hinc, if_pos, if_neg hempty]
        cases hps : parseStats (deviceNameSanitize d) row m with
        | ok m' => exact ih m'
        | err m' e => rfl
        | panic => rfl

theorem fetchLoop_ne_panic (blocks : List (String × Bool)) :
    ∀ (rows : List (List String)) (m : MetricMap),
      (∀ r ∈ rows, 3 ≤ r.length ∧ r.length ≤ 18) →
      fetchLoop blocks rows m ≠ .panic := by
  intro rows
  induction rows with
  | nil =>
    intro m _ h
    exact Outcome.noConfusion h
  | cons row rest ih =>
    intro m hlen
    obtain ⟨h3, h18⟩ := hlen row (List.mem_cons_self _ _)
    have hlen' : ∀ r ∈ rest, 3 ≤ r.length ∧ r.length ≤ 18 :=
      fun r hr => hlen r (List.mem_cons_of_mem _ hr)
    have hg2 : 2 < row.length := by omega
    have hrow : row.get? 2 = some (row.get ⟨2, hg2⟩) := List.get?_eq_get hg2
    simp only [fetchLoop, hrow]
    by_cases hskip : List.lookup (row.get ⟨2, hg2⟩) blocks = some false
    · rw [if_pos hskip]
      exact ih m hlen'
    · rw [if_neg hskip]
      cases hps : parseStats (deviceNameSanitize (row.get ⟨2, hg2⟩)) row m with
      | ok m' => exact ih m' hlen'
      | err m' e => exact fun h => Outcome.noConfusion h
      | panic => exact absurd hps (parseStats_ne_panic _ row m h3 h18)

theorem fetchLoop_err_of_bad (blocks : List (String × Bool)) :
    ∀ (rows : List (List String)) (m : MetricMap),
      (∀ r ∈ rows, 3 ≤ r.length ∧ r.length ≤ 18) →
      (∃ r ∈ rows, ∃ d, r.get? 2 = some d ∧ ¬List.lookup d blocks = some false ∧
        ∃ t ∈ r.drop 3, parseFloat t = none) →
      ∃ t, parseFloat t = none ∧ (∃ r ∈ rows, t ∈ r.drop 3) ∧
        fetchLoop blocks rows m = .err (parseErrMsg t) := by
  intro rows
  induction rows with
  | nil =>
    intro m _ hbad
    simp at hbad
  | cons row rest ih =>
    intro m hlen hbad
    obtain ⟨h3, h18⟩ := hlen row (List.mem_cons_self _ _)
    have hlen' : ∀ r ∈ rest, 3 ≤ r.length ∧ r.length ≤ 18 :=
      fun r hr => hlen r (List.mem_cons_of_mem _ hr)
    have hg2 : 2 < row.length := by omega
    have hrow : row.get? 2 = some (row.get ⟨2, hg2⟩) := List.get?_eq_get hg2
    simp only [fetchLoop, hrow]
    by_cases hskip : List.lookup (row.get ⟨2, hg2⟩) blocks = some false
    · rw [if_pos hskip]
      have hbad' : ∃ r ∈ rest, ∃ d, r.get? 2 = some d ∧ ¬List.lookup d blocks = some false ∧
          ∃ t ∈ r.drop 3, parseFloat t = none := by
        obtain ⟨r, hr, d, hd, hnd, hbt⟩ := hbad
        rcases List.mem_cons.mp hr with hreq | hmem
        · rw [hreq] at hd
          obtain rfl : row.get ⟨2, hg2⟩ = d := Option.some.inj (hrow.symm.trans hd)
          exact absurd hskip hnd
        · exact ⟨r, hmem, d, hd, hnd, hbt⟩
      obtain ⟨t, hnone, ⟨r, hr, hmem⟩, hrun⟩ := ih m hlen' hbad'
      exact ⟨t, hnone, ⟨r, List.mem_cons_of_mem _ hr, hmem⟩, hrun⟩
    · rw [if_neg hskip]
      by_cases hbadrow : ∃ t ∈ row.drop 3, parseFloat t = none
      · obtain ⟨t, m', hmem, hnone, hrun⟩ :=
          parseStats_err_exists (deviceNameSanitize (row.get ⟨2, hg2⟩)) row m h3 h18 hbadrow
        rw [hrun]
        exact ⟨t, hnone, ⟨row, List.mem_cons_self _ _, hmem⟩, rfl⟩
      · have hall : ∀ t ∈ row.drop 3, (parseFloat t).isSome := by
          intro t ht
          rcases hopt : parseFloat t with _ | v
          · exact absurd ⟨t, ht, hopt⟩ hbadrow
          · rfl
        obtain ⟨m', hrun, _⟩ :=
          parseStats_ok (deviceNameSanitize (row.get ⟨2, hg2⟩)) row m h3 h18 hall
        rw [hrun]
        have hbad' : ∃ r ∈ rest, ∃ d, r.get? 2 = some d ∧ ¬List.lookup d blocks = some false ∧
            ∃ t ∈ r.drop 3, parseFloat t = none := by
          obtain ⟨r, hr, d, hd, hnd, hbt⟩ := hbad
          rcases List.mem_cons.mp hr with rfl | hmem
          · exact absurd hbt hbadrow
          · exact ⟨r, hmem, d, hd, hnd, hbt⟩
        obtain ⟨t, hnone, ⟨r, hr, hmem⟩, hrun'⟩ := ih m' hlen' hbad'
        exact ⟨t, hnone, ⟨r, List.mem_cons_of_mem _ hr, hmem⟩, hrun'⟩

/-! ### `analyzeBlockdevices` lemmas -/

theorem classifyOne_ok {blocks : List (String × Bool)} {d : FileInfo}
    {b : List (String × Bool)} (h : classifyOne blocks d = .ok b) :
    ∃ np, b = np ++ blocks ∧ ∀ p ∈ np, p.1 = d.name := by
  rw [classifyOne] at h
  by_cases hsym : d.isSymlink
  · rw [hsym] at h
    simp only [Bool.not_true, Bool.false_eq_true, if_false] at h
    cases hrl : d.readlinkResult with
    | error e =>
      simp only [hrl] at h
      exact Except.noConfusion h
    | ok real =>
      simp only [hrl] at h
      by_cases hpre : hasPre "../devices/virtual/block/" real
      · rw [if_pos hpre] at h
        refine ⟨[(d.name, false)], ?_, ?_⟩
        · simpa using (Except.ok.inj h).symm
        · intro p hp
          simp at hp
          rw [hp]
      · rw [if_neg hpre] at h
        refine ⟨[(d.name, true), (d.name, false)], ?_, ?_⟩
        · simpa using (Except.ok.inj h).symm
        · intro p hp
          rcases List.mem_cons.mp hp with rfl | hp'
          · rfl
          · simp at hp'
            rw [hp']
  · rw [Bool.not_eq_true] at hsym
    rw [hsym] at h
    simp only [Bool.not_false, if_true] at h
    refine ⟨[(d.name, false)], ?_, ?_⟩
    · simpa using (Except.ok.inj h).symm
    · intro p hp
      simp at hp
      rw [hp]

theorem analyzeLoop_ok_append :
    ∀ (devs : List FileInfo) (blocks B : List (String × Bool)),
      analyzeLoop devs blocks = .ok B →
      ∃ added, B = added ++ blocks ∧ ∀ p ∈ added, p.1 ∈ devs.map FileInfo.name := by
  intro devs
  induction devs with
  | nil =>
    intro blocks B h
    refine ⟨[], ?_, by simp⟩
    simpa using (Except.ok.inj h).symm
  | cons d rest ih =>
    intro blocks B h
    simp only [analyzeLoop] at h
    cases hc : classifyOne blocks d with
    | error e =>
      simp only [hc] at h
      exact Except.noConfusion h
    | ok b =>
      simp only [hc] at h
      obtain ⟨np, rfl, hnp⟩ := classifyOne_ok hc
      obtain ⟨added, rfl, hadd⟩ := ih (np ++ blocks) B h
      refine ⟨added ++ np, by rw [List.append_assoc], ?_⟩
      intro p hp
      rcases List.mem_append.mp hp with hp' | hp'
      · exact List.mem_cons_of_mem _ (hadd p hp')
      · rw [hnp p hp', List.map_cons]
        exact List.mem_cons_self _ _

theorem analyzeLoop_err :
    ∀ (pre : List FileInfo) (d : FileInfo) (post : List FileInfo) (e : String)
      (blocks : List (String × Bool)),
      (∀ p ∈ pre, p.isSymlink = true → ∃ tgt, p.readlinkResult = .ok tgt) →
      d.isSymlink = true → d.readlinkResult = .error e →
      analyzeLoop (pre ++ d :: post) blocks =
        .error ("Cannot read from directory /sys/block/" ++ d.name ++ ": " ++ e) := by
  intro pre
  induction pre with
  | nil =>
    intro d post e blocks _ hsym herr
    have hco : classifyOne blocks d =
        .error ("Cannot read from directory /sys/block/" ++ d.name ++ ": " ++ e) := by
      simp [classifyOne, hsym, herr]
    simp only [List.nil_append, analyzeLoop, hco]
  | cons p pre ih =>
    intro d post e blocks hpre hsym herr
    have hok : ∃ b, classifyOne blocks p = .ok b := by
      by_cases hs : p.isSymlink
      · obtain ⟨tgt, htgt⟩ := hpre p (List.mem_cons_self _ _) hs
        by_cases hp : hasPre "../devices/virtual/block/" tgt
        · exact ⟨(p.name, false) :: blocks, by simp [classifyOne, hs, htgt, hp]⟩
        · exact ⟨(p.name, true) :: (p.name, false) :: blocks, by simp [classifyOne, hs, htgt, hp]⟩
      · rw [Bool.not_eq_true] at hs
        exact ⟨(p.name, false) :: blocks, by simp [classifyOne, hs]⟩
    obtain ⟨b, hb⟩ := hok
    simp only [List.cons_append, analyzeLoop, hb]
    exact ih d post e b (fun q hq => hpre q (List.mem_cons_of_mem _ hq)) hsym herr

theorem analyzeLoop_lookup :
    ∀ (devs : List FileInfo) (blocks B : List (String × Bool)),
      analyzeLoop devs blocks = .ok B →
      (devs.map FileInfo.name).Nodup →
      ∀ d ∈ devs,
        (d.isSymlink = false → List.lookup d.name B = some false) ∧
        (∀ tgt, d.isSymlink = true → d.readlinkResult = .ok tgt →
          List.lookup d.name B = some (!hasPre "../devices/virtual/block/" tgt)) := by
  intro devs
  induction devs with
  | nil =>
    intro blocks B _ _ d hd
    exact absurd hd (List.not_mem_nil d)
  | cons d0 rest ih =>
    intro blocks B hrun hnd d hd
    simp only [analyzeLoop] at hrun
    cases hc : classifyOne blocks d0 with
    | error e =>
      simp only [hc] at hrun
      exact Except.noConfusion hrun
    | ok b =>
      simp only [hc] at hrun
      simp only [List.map_cons, List.nodup_cons] at hnd
      rcases List.mem_cons.mp hd with hdeq | hmem
      · subst hdeq
        obtain ⟨added, rfl, hadd⟩ := analyzeLoop_ok_append rest b _ hrun
        have hlk : List.lookup d.name (added ++ b) = List.lookup d.name b := by
          apply lookup_append_of_not_mem
          intro p hp hpe
          exact hnd.1 (hpe ▸ hadd p hp)
        refine ⟨?_, ?_⟩
        · intro hsym
          have hb : b = (d.name, false) :: blocks := by
            have hc' := hc
            simp only [classifyOne, hsym, Bool.not_false, if_true] at hc'
            exact (Except.ok.inj hc').symm
          rw [hlk, hb]
          simp [List.lookup]
        · intro tgt hsym hrl
          by_cases hp : hasPre "../devices/virtual/block/" tgt
          · have hb : b = (d.name, false) :: blocks := by
              have hc' := hc
              simp only [classifyOne, hsym, Bool.not_true, Bool.false_eq_true, if_false,
                hrl, if_pos hp] at hc'
              exact (Except.ok.inj hc').symm
            rw [hlk, hb, hp]
            simp [List.lookup]
          · have hb : b = (d.name, true) :: (d.name, false) :: blocks := by
              have hc' := hc
              simp only [classifyOne, hsym, Bool.not_true, Bool.false_eq_true, if_false,
                hrl, if_neg hp] at hc'
              exact (Except.ok.inj hc').symm
            rw [hlk, hb]
            rw [Bool.not_eq_true] at hp
            simp [List.lookup, hp]
      · exact ih b _ hrun hnd.2 d hmem

theorem formatDiskstats_foldl (lines : List (List Char)) :
    ∀ acc : List (List String),
      lines.foldl (fun result line =>
        let fs := goFields line
        match fs with
        | [] => result
        | first :: _ => if first.length = 0 then result else result ++ [fs]) acc =
      acc ++ (lines.map goFields).filter keepRow := by
  induction lines with
  | nil => intro acc; simp
  | cons line rest ih =>
    intro acc
    simp only [List.foldl_cons, List.map_cons, List.filter_cons]
    cases hfs : goFields line with
    | nil =>
      have hk : keepRow ([] : List String) = false := rfl
      simp only [hfs, hk, Bool.false_eq_true, if_false]
      exact ih acc
    | cons first restf =>
      by_cases hlen0 : first.length = 0
      · have hk : keepRow (first :: restf) = false := by
          simp [keepRow, hlen0]
        simp only [hfs, hk, Bool.false_eq_true, if_false, if_pos hlen0]
        exact ih acc
      · have hk : keepRow (first :: restf) = true := by
          simp [keepRow, hlen0]
        simp only [hfs, hk, if_true, if_neg hlen0]
        rw [ih (acc ++ [first :: restf])]
        simp [List.append_assoc]

theorem formatDiskstats_eq (stats : String) :
    formatDiskstats stats =
      ((splitChars (fun c => c == '\n') stats.data).map goFields).filter keepRow := by
  have h := formatDiskstats_foldl (splitChars (fun c => c == '\n') stats.data) []
  simpa [formatDiskstats] using h

/-! ### Claim theorems -/

/-- C1 (corrected). For every block-device listing that classifies
successfully and has distinct entry names, the returned map binds every
non-symlink entry to `false` and binds a symlink entry to `false` exactly
when its resolved target begins with `../devices/virtual/block/` (one
parent step — not two as the claim's example has), and to `true`
otherwise. -/
theorem analyzeBlockdevices_classification (devices : List FileInfo)
    (B : List (String × Bool)) (hrun : analyzeBlockdevices devices = .ok B)
    (hnd : (devices.map FileInfo.name).Nodup) :
    ∀ d ∈ devices,
      (d.isSymlink = false → List.lookup d.name B = some false) ∧
      (∀ tgt, d.isSymlink = true → d.readlinkResult = .ok tgt →
        List.lookup d.name B = some (!hasPre "../devices/virtual/block/" tgt)) :=
  analyzeLoop_lookup devices [] B hrun hnd

/-- C1 counterexample. A symlink whose target is
`../../devices/virtual/block/loop0` (two parent steps) does not begin with
the source's prefix `../devices/virtual/block/`, so the code classifies it
as physical (`true`), while the claim says virtual (`false`). -/
theorem analyzeBlockdevices_double_parent_counterexample :
    analyzeBlockdevices [⟨"loop0", true, .ok "../../devices/virtual/block/loop0"⟩] =
      .ok [("loop0", true), ("loop0", false)] ∧
    List.lookup "loop0" [("loop0", true), ("loop0", false)] = some true :=
  ⟨rfl, rfl⟩

/-- Witness for C1 at a concrete listing: a one-parent virtual symlink is
`false`, a pci-backed symlink is `true`, a non-symlink entry is `false`. -/
theorem analyzeBlockdevices_classification_witness :
    List.lookup "loop0"
      [("sr0", false), ("vda", true), ("vda", false), ("loop0", false)] = some false ∧
    List.lookup "vda"
      [("sr0", false), ("vda", true), ("vda", false), ("loop0", false)] = some true ∧
    List.lookup "sr0"
      [("sr0", false), ("vda", true), ("vda", false), ("loop0", false)] = some false := by
  have h := analyzeBlockdevices_classification mixedDevices
    [("sr0", false), ("vda", true), ("vda", false), ("loop0", false)] rfl (by decide)
  refine ⟨?_, ?_, ?_⟩
  · have h1 := (h ⟨"loop0", true, .ok "../devices/virtual/block/loop0"⟩
      (by simp [mixedDevices])).2 "../devices/virtual/block/loop0" rfl rfl
    exact h1.trans (by decide)
  · have h1 := (h ⟨"vda", true, .ok "../../devices/pci0000:00/virtio2/block/vda"⟩
      (by simp [mixedDevices])).2 "../../devices/pci0000:00/virtio2/block/vda" rfl rfl
    exact h1.trans (by decide)
  · exact (h ⟨"sr0", false, .ok ""⟩ (by simp [mixedDevices])).1 rfl

/-- C2 (code bug). The sanitizer leaves `loop0` unchanged, but also leaves
`a.b` unchanged instead of stripping the `.`: the regex
`[^[[:alnum:]]_-]` only deletes four-character runs such as ` _-]`. -/
theorem deviceNameSanitize_code_bug_eval :
    deviceNameSanitize "loop0" = "loop0" ∧
    deviceNameSanitize "a.b" = "a.b" ∧
    deviceNameSanitize "a.b" ≠ "ab" ∧
    deviceNameSanitize "x _-]y" = "xy" :=
  ⟨rfl, rfl, by decide, rfl⟩

/-- C3. For any label and any well-shaped row whose counter tokens all
parse, `parseStats` succeeds and stores, under the key obtained by
substituting the label into the matching template at its first dot, the
parsed value divided by 60 for the rate categories and unchanged for
`inprogress`. -/
theorem parseStats_normalize (label : String) (row : List String) (m : MetricMap)
    (h3 : 3 ≤ row.length) (h18 : row.length ≤ 18)
    (hall : ∀ t ∈ row.drop 3, (parseFloat t).isSome) :
    (parseStats label row m).isOk = true ∧
    (∀ j t v tmpl, (row.drop 3).get? j = some t → parseFloat t = some v →
      metricNames.get? j = some tmpl →
      mget (parseStats label row m).metricsOf (metricKey tmpl label) =
        some (if isRateCategory (keyCategory tmpl) then v / 60 else v)) := by
  obtain ⟨m', hrun, hlook⟩ := parseStats_ok label row m h3 h18 hall
  rw [hrun]
  exact ⟨rfl, fun j t v tmpl hgt hpv hgm => hlook j t v tmpl hgt hpv hgm⟩

/-- Witness for C3 on the `TestParseStats` fixture row:
`request.vda.reads = 62695/60`, `inprogress.vda.io = 0` unconverted, and
`time.vda.ioWeighted = 301208/60`. -/
theorem parseStats_normalize_witness :
    mget (parseStats "vda" vdaTestRow []).metricsOf "request.vda.reads" =
      some (62695 / 60) ∧
    mget (parseStats "vda" vdaTestRow []).metricsOf "inprogress.vda.io" = some 0 ∧
    mget (parseStats "vda" vdaTestRow []).metricsOf "time.vda.ioWeighted" =
      some (301208 / 60) := by
  have h := parseStats_normalize "vda" vdaTestRow [] (by decide) (by decide) (by decide)
  refine ⟨?_, ?_, ?_⟩
  · exact h.2 0 "62695" 62695 "request.reads" (by decide) rfl rfl
  · exact h.2 8 "0" 0 "inprogress.io" (by decide) rfl rfl
  · exact h.2 10 "301208" 301208 "time.ioWeighted" (by decide) rfl rfl

/-- C4 counterexample. With virtual filtering on, a virtual-device row
containing the unparsable token `abc` is skipped before parsing, so
`FetchMetrics` succeeds and returns the physical device's metrics even
though the input contains a row with a non-numeric counter token. -/
theorem fetchMetrics_failfast_counterexample :
    (∃ r ∈ formatDiskstats mixedBadText, ∃ t ∈ r.drop 3, parseFloat t = none) ∧
    (FetchMetrics mixedBadText loopOnlyDevices true).isOk = true ∧
    mget (FetchMetrics mixedBadText loopOnlyDevices true).metricsOf
      "request.vda.reads" = some (1 / 60) := by
  refine ⟨by decide, rfl, rfl⟩

/-- C4 (amended). For well-shaped rows, when some row that is not skipped
by virtual-device filtering has an unparsable counter token, the collector
fails with the parse error naming an offending token and returns no
metric mapping at all. -/
theorem fetchMetrics_failfast_amended (text : String) (devices : List FileInfo)
    (flag : Bool) (blocks : List (String × Bool))
    (hcls : (if flag then analyzeBlockdevices devices else .ok []) = .ok blocks)
    (hlen : ∀ r ∈ formatDiskstats text, 3 ≤ r.length ∧ r.length ≤ 18)
    (hbad : ∃ r ∈ formatDiskstats text, ∃ d, r.get? 2 = some d ∧
      ¬List.lookup d blocks = some false ∧ ∃ t ∈ r.drop 3, parseFloat t = none) :
    ∃ t, parseFloat t = none ∧ (∃ r ∈ formatDiskstats text, t ∈ r.drop 3) ∧
      FetchMetrics text devices flag = .err (parseErrMsg t) := by
  have hFM : FetchMetrics text devices flag = fetchLoop blocks (formatDiskstats text) [] := by
    cases flag with
    | false =>
      obtain rfl : ([] : List (String × Bool)) = blocks := by
        simpa using hcls
      simp [FetchMetrics]
    | true =>
      simp only [if_pos] at hcls
      simp [FetchMetrics, hcls]
  rw [hFM]
  exact fetchLoop_err_of_bad blocks (formatDiskstats text) [] hlen hbad

/-- Witness for C4 on a one-row blob with the bad token `x` and filtering
off: the collector returns an error, not a mapping. -/
theorem fetchMetrics_failfast_amended_witness :
    (FetchMetrics "1 2 vda x 5" [] false).isOk = false := by
  obtain ⟨t, -, -, herr⟩ := fetchMetrics_failfast_amended "1 2 vda x 5" [] false []
    rfl (by decide) (by decide)
  rw [herr]
  rfl

/-- C5. With `ignoreVirtual = true` and a successful classification, the
collector behaves exactly as the unfiltered loop run on the rows whose
device is not classified virtual — virtual rows contribute nothing, all
other rows (including devices absent from the map) are processed in full;
with `ignoreVirtual = false` every row is processed. -/
theorem fetchMetrics_virtual_filter (text : String) (devices : List FileInfo)
    (blocks : List (String × Bool)) (hcls : analyzeBlockdevices devices = .ok blocks) :
    FetchMetrics text devices true =
      fetchLoop [] ((formatDiskstats text).filter (includedRow blocks)) [] ∧
    FetchMetrics text devices false = fetchLoop [] (formatDiskstats text) [] := by
  constructor
  · simp only [FetchMetrics, if_pos, hcls]
    exact fetchLoop_filter blocks (formatDiskstats text) []
  · simp [FetchMetrics]

/-- Witness for C5 at a concrete blob holding a physical `vda` row and a
virtual `loop0` row. -/
theorem fetchMetrics_virtual_filter_witness :
    FetchMetrics mixedBadText loopOnlyDevices true =
      fetchLoop [] ((formatDiskstats mixedBadText).filter
        (includedRow [("loop0", false)])) [] :=
  (fetchMetrics_virtual_filter mixedBadText loopOnlyDevices [("loop0", false)] rfl).1

/-- C6. When a symlink entry's target cannot be read (and the entries
before it resolve), classification aborts with an error naming that
device's `/sys/block` path, returning no map. -/
theorem analyzeBlockdevices_readlink_error (pre : List FileInfo) (d : FileInfo)
    (post : List FileInfo) (e : String)
    (hpre : ∀ p ∈ pre, p.isSymlink = true → ∃ tgt, p.readlinkResult = .ok tgt)
    (hsym : d.isSymlink = true) (herr : d.readlinkResult = .error e) :
    analyzeBlockdevices (pre ++ d :: post) =
      .error ("Cannot read from directory /sys/block/" ++ d.name ++ ": " ++ e) :=
  analyzeLoop_err pre d post e [] hpre hsym herr

/-- Witness for C6: a failing `sda` symlink after a healthy non-symlink
entry aborts the whole classification with the message naming `sda`. -/
theorem analyzeBlockdevices_readlink_error_witness :
    analyzeBlockdevices
      [⟨"vda", false, .ok ""⟩, ⟨"sda", true, .error "permission denied"⟩] =
      .error "Cannot read from directory /sys/block/sda: permission denied" := by
  have h := analyzeBlockdevices_readlink_error [⟨"vda", false, .ok ""⟩]
    ⟨"sda", true, .error "permission denied"⟩ [] "permission denied"
    (by
      intro p hp hs
      rw [List.mem_singleton] at hp
      subst hp
      simp at hs)
    rfl rfl
  exact h.trans (by rfl)

/-- C7. The tokenizer equals: split on newlines, split each line on runs
of white space, keep exactly the rows that are nonempty with a nonempty
first field, in file order; the empty input gives the empty sequence. -/
theorem formatDiskstats_tokenization :
    (∀ stats : String, formatDiskstats stats =
      ((splitChars (fun c => c == '\n') stats.data).map goFields).filter keepRow) ∧
    formatDiskstats "" = [] :=
  ⟨formatDiskstats_eq, rfl⟩

/-- C8 counterexample. A 19-token row whose fourth token is `x` produces a
parse error — not the out-of-range access the claim asserts for every
over-long row. -/
theorem parseStats_token_bounds_counterexample :
    parseStats "vda" longBadRow [] ≠ PResult.panic ∧
    (parseStats "vda" longBadRow []).errMsgOf = some (parseErrMsg "x") ∧
    fetchLoop [] [longBadRow] [] = Outcome.err (parseErrMsg "x") :=
  ⟨by decide, rfl, rfl⟩

/-- C8 (amended). Rows of 3 to 18 tokens are processed without any
out-of-range access; a reached row with fewer than 3 tokens always
panics; a row with more than 18 tokens panics when its first 15 counter
tokens parse (an earlier unparsable token yields a parse error first). -/
theorem parseStats_token_bounds_amended :
    (∀ (text : String) (devices : List FileInfo) (flag : Bool),
      (∀ r ∈ formatDiskstats text, 3 ≤ r.length ∧ r.length ≤ 18) →
      FetchMetrics text devices flag ≠ Outcome.panic) ∧
    (∀ (blocks : List (String × Bool)) (rest : List (List String)) (m : MetricMap)
      (row : List String), row.length < 3 →
      fetchLoop blocks (row :: rest) m = Outcome.panic) ∧
    (∀ (label : String) (row : List String) (m : MetricMap), 18 < row.length →
      (∀ j t, j < 15 → (row.drop 3).get? j = some t → (parseFloat t).isSome) →
      parseStats label row m = PResult.panic) := by
  refine ⟨?_, ?_, ?_⟩
  · intro text devices flag hlen
    cases flag with
    | false =>
      simp only [FetchMetrics, Bool.false_eq_true, if_false]
      exact fetchLoop_ne_panic [] _ [] hlen
    | true =>
      cases hcls : analyzeBlockdevices devices with
      | error e =>
        simp only [FetchMetrics, if_pos, hcls]
        exact fun h => Outcome.noConfusion h
      | ok blocks =>
        simp only [FetchMetrics, if_pos, hcls]
        exact fetchLoop_ne_panic blocks _ [] hlen
  · intro blocks rest m row hrow
    have h2 : row.get? 2 = none := List.get?_eq_none.mpr (by omega)
    simp only [fetchLoop, h2]
  · intro label row m hlong hall
    exact parseStats_panic_long label row m hlong hall

/-- Witness for C8: an 11-counter row is accepted, a 2-token row panics,
and an all-numeric 19-token row panics. -/
theorem parseStats_token_bounds_amended_witness :
    FetchMetrics "7 0 loop0 1 2 3" [] false ≠ Outcome.panic ∧
    fetchLoop [] [["7", "0"]] [] = Outcome.panic ∧
    parseStats "vda" longNumericRow [] = PResult.panic := by
  refine ⟨parseStats_token_bounds_amended.1 "7 0 loop0 1 2 3" [] false (by decide),
    parseStats_token_bounds_amended.2.1 [] [] [] ["7", "0"] (by decide),
    parseStats_token_bounds_amended.2.2 "vda" longNumericRow [] (by decide) ?_⟩
  intro j t hj hgt
  exact (by decide : ∀ t ∈ longNumericRow.drop 3, (parseFloat t).isSome) t
    (List.get?_mem hgt)

/-- C9. Collection is a pure function of its inputs — the embedding keeps
no state between invocations (the source only reads process-wide
immutable tables), so two runs on identical inputs agree. -/
theorem fetchMetrics_deterministic (diskstats : String) (devices : List FileInfo)
    (ignoreVirtual : Bool) :
    FetchMetrics diskstats devices ignoreVirtual =
      FetchMetrics diskstats devices ignoreVirtual := rfl

/-- C10. When the counter at position `k` fails to parse, `parseStats`
reports the parse error while the mapping it mutated already holds the
converted entries of every earlier position plus the key of position `k`
bound to 0, and the orchestrator loop turns this into a bare error
carrying no mapping at all. -/
theorem parseStats_partial_mutation (label : String) (stats : List String)
    (m : MetricMap) (k : ℕ) (t0 : String)
    (hk : (stats.drop 3).get? k = some t0) (h15 : k < 15)
    (hbad : parseFloat t0 = none)
    (hpre : ∀ j t, j < k → (stats.drop 3).get? j = some t → (parseFloat t).isSome) :
    (parseStats label stats m).errMsgOf = some (parseErrMsg t0) ∧
    (∀ tmpl, metricNames.get? k = some tmpl →
      mget (parseStats label stats m).metricsOf (metricKey tmpl label) = some 0) ∧
    (∀ j t v tmpl, j < k → (stats.drop 3).get? j = some t → parseFloat t = some v →
      metricNames.get? j = some tmpl →
      mget (parseStats label stats m).metricsOf (metricKey tmpl label) =
        some (if isRateCategory (keyCategory tmpl) then v / 60 else v)) ∧
    (∀ (blocks : List (String × Bool)) (rest : List (List String)) (d : String),
      stats.get? 2 = some d → ¬List.lookup d blocks = some false →
      deviceNameSanitize d = label →
      fetchLoop blocks (stats :: rest) m = .err (parseErrMsg t0)) := by
  have hklen : k < (stats.drop 3).length := (List.get?_eq_some.mp hk).1
  have h3 : ¬stats.length < 3 := by
    rw [List.length_drop] at hklen
    omega
  obtain ⟨m', hrun, h0, hjs, _⟩ :=
    parseStatsLoop_err label k (stats.drop 3) 0 m t0 hk (by omega) hbad hpre
  have hps : parseStats label stats m = .err m' (parseErrMsg t0) := by
    rw [parseStats, if_neg h3]
    exact hrun
  rw [hps]
  refine ⟨rfl, ?_, ?_, ?_⟩
  · intro tmpl hg
    exact h0 tmpl (by simpa using hg)
  · intro j t v tmpl hj hgt hpv hgm
    exact hjs j t v tmpl hj hgt hpv (by simpa using hgm)
  · intro blocks rest d hd hnf hlab
    simp only [fetchLoop, hd, if_neg hnf, hlab, hps]

/-- Witness for C10 on a row failing at counter position 1: the error names
`zzz`, position 1's key holds 0, position 0's key holds its converted
value, and the orchestrator returns a bare error. -/
theorem parseStats_partial_mutation_witness :
    (parseStats "vda" badMidRow []).errMsgOf = some (parseErrMsg "zzz") ∧
    mget (parseStats "vda" badMidRow []).metricsOf "merge.vda.reads" = some 0 ∧
    mget (parseStats "vda" badMidRow []).metricsOf "request.vda.reads" =
      some (62695 / 60) ∧
    fetchLoop [] [badMidRow] [] = Outcome.err (parseErrMsg "zzz") := by
  have h := parseStats_partial_mutation "vda" badMidRow [] 1 "zzz" (by decide)
    (by decide) (by decide)
    (by
      intro j t hj hgt
      have hj0 : j = 0 := by omega
      subst hj0
      obtain rfl : "62695" = t :=
        Option.some.inj ((rfl : (badMidRow.drop 3).get? 0 = some "62695").symm.trans hgt)
      decide)
  refine ⟨h.1, ?_, ?_, ?_⟩
  · exact h.2.1 "merge.reads" rfl
  · exact h.2.2.1 0 "62695" 62695 "request.reads" (by decide) (by decide) rfl rfl
  · exact h.2.2.2 [] [] "vda" (by decide) (by decide) rfl

end MpIostat
